import Mathlib

/-!
# MoC-scraper: verification of the bilingual-scraping pipeline

Shallow embedding of the MoC-scraper repository (Kheav-Kienghok/MoC-scraper)
and proofs about it.  Pure functions of the Python source are translated into
executable Lean definitions; external collaborators (the HTTP fetcher, the
URL parser of the standard library, the sentence-embedding similarity oracle)
are passed in as function parameters, as the spec treats them as external
collaborators.  Python floats are modelled by exact rationals `ℚ`; at every
comparison threshold appearing in the source (`0.3`, `0.5`) the float
comparison of the source and the rational comparison agree on the ratios
discussed here, because these thresholds and ratios round to floats in an
order-preserving way.
-/

namespace MoCScraper

/-! ## Language detection (`detect_language`)

The method `detect_language` appears character-for-character identically in
`src/Celery/scraper.py`, `src/MoFA.py` and `src/main.py`; it is embedded once.
-/

/-- A character of the Khmer Unicode block, as in the source comparison
`"ក" <= char <= "៿"`. -/
def isKhmerChar (c : Char) : Bool :=
  0x1780 ≤ c.val && c.val ≤ 0x17FF

/-- An ASCII Latin letter, as in the source test
`char.isalpha() and ord(char) < 128`. -/
def isAsciiLetterChar (c : Char) : Bool :=
  (65 ≤ c.val && c.val ≤ 90) || (97 ≤ c.val && c.val ≤ 122)

/-- `khmer_chars` of `detect_language`: number of Khmer-block code points. -/
def khmer_chars (text : String) : Nat :=
  (text.data.filter isKhmerChar).length

/-- `english_chars` of `detect_language`: number of ASCII Latin letters. -/
def english_chars (text : String) : Nat :=
  (text.data.filter isAsciiLetterChar).length

/-- `total_chars` of `detect_language`: `len(text.replace(' ', ''))`,
the number of non-space characters. -/
def total_chars (text : String) : Nat :=
  (text.data.filter (fun c => c ≠ ' ')).length

/-- The Khmer ratio `khmer_chars / total_chars` (0 when the text has no
non-space characters, a case `detect_language` guards separately). -/
def khmerRatio (text : String) : ℚ :=
  (khmer_chars text : ℚ) / (total_chars text : ℚ)

/-- The Latin-letter ratio `english_chars / total_chars`. -/
def englishRatio (text : String) : ℚ :=
  (english_chars text : ℚ) / (total_chars text : ℚ)

/-- `MoFAWebScraper.detect_language` (identical in `src/Celery/scraper.py`,
`src/MoFA.py`, `src/main.py`): empty text and space-only text are classified
`english`; otherwise a Khmer ratio above 0.3 gives `khmer`, else a Latin
ratio above 0.5 gives `english`, else `mixed`. -/
def detect_language (text : String) : String :=
  if text.data = [] then "english"
  else if total_chars text = 0 then "english"
  else if khmerRatio text > 3 / 10 then "khmer"
  else if englishRatio text > 1 / 2 then "english"
  else "mixed"

/-! ## The cross-lingual aligner (`src/KhmerEnglishAligner.py`)

The aligner depends on the LaBSE sentence-transformer model only through the
cosine similarity of the embeddings of two texts.  That external Similarity
Oracle is modelled as a parameter `sim : String → String → ℚ` giving the
cosine similarity of (the embedding of) an English-side text against (the
embedding of) a Khmer-side text; equal texts have equal embeddings, so a
function of the two texts is the faithful abstraction.
-/

/-- An `(english_idx, khmer_idx, similarity_score)` tuple of the aligner. -/
structure Pair where
  en : Nat
  km : Nat
  score : ℚ
deriving DecidableEq

instance : Inhabited Pair := ⟨⟨0, 0, 0⟩⟩

/-- Inner loop of `similarities.argmax().item()`: carries the best index and
value so far; a later value replaces the best only when strictly greater,
matching the first-maximum semantics of `torch.argmax`. -/
def argmaxFirstGo : Nat → ℚ → Nat → List ℚ → Nat
  | bi, _, _, [] => bi
  | bi, bv, i, x :: xs =>
    if bv < x then argmaxFirstGo i x (i + 1) xs else argmaxFirstGo bi bv (i + 1) xs

/-- Index of the first maximal element of a list of scores
(`similarities.argmax()`); 0 for the empty list, which the aligner never
passes (the English list is non-empty). -/
def argmaxFirst : List ℚ → Nat
  | [] => 0
  | x :: xs => argmaxFirstGo 0 x 1 xs

/-- `KhmerEnglishAligner._find_best_matches`: for each Khmer index `km_idx`
(in order), the similarities of every English sentence against that Khmer
sentence, the argmax English index, and the maximal score. -/
def find_best_matches (sim : String → String → ℚ) (eng khmer : List String) :
    List Pair :=
  (List.range khmer.length).map fun kmIdx =>
    let scores := eng.map fun e => sim e (khmer.getD kmIdx "")
    let bestEn := argmaxFirst scores
    ⟨bestEn, kmIdx, scores.getD bestEn 0⟩

/-- The running best merge candidate of `_merge_unused_sentences`:
`best_candidate`, `best_diff`, `best_text`, `best_new_score`.  The Python
initial state (`best_candidate = None`, `best_diff = -inf`) is modelled by
`Option BestCand` with `none` as the initial state; any finite score
difference beats `-inf`, which matches the first loop iteration always
installing its candidate. -/
structure BestCand where
  idx : Nat
  diff : ℚ
  text : String
  newScore : ℚ
deriving DecidableEq

/-- The inner candidate loop of `_merge_unused_sentences` over the unused
English indices: for each unused index, build the merged candidate text with
a separating space, score it against the Khmer embedding, and keep it iff
`score_diff > best_diff`. -/
def innerLoop (sim : String → String → ℚ) (eng : List String) (kmText : String)
    (curText : String) (oldScore : ℚ) :
    List Nat → Option BestCand → Option BestCand
  | [], best => best
  | c :: rest, best =>
    let candidateText := curText ++ " " ++ eng.getD c ""
    let newScore := sim candidateText kmText
    let scoreDiff := newScore - oldScore
    let keep : Bool :=
      match best with
      | none => true
      | some b => decide (b.diff < scoreDiff)
    innerLoop sim eng kmText curText oldScore rest
      (if keep then some ⟨c, scoreDiff, candidateText, newScore⟩ else best)

/-- The outer loop of `_merge_unused_sentences` over `enumerate(pairs)`.  The
Python loop mutates two parallel lists (`merged_english_texts` and `pairs`)
in place, only ever at the index currently being processed, and threads the
shrinking `unused_english_indices` list; this recursion processes the zipped
`(pair, merged_text)` list in the same order with the same pool threading.
When a best candidate exists it is appended to the text with a space, the
pair score becomes the new score, and the candidate index is removed
(`list.remove`: first occurrence) from the unused pool. -/
def merge_unused_go (sim : String → String → ℚ) (eng khmer : List String) :
    List (Pair × String) → List Nat → List String × List Pair
  | [], _ => ([], [])
  | (p, text) :: rest, unused =>
    match innerLoop sim eng (khmer.getD p.km "") text p.score unused none with
    | none =>
      let r := merge_unused_go sim eng khmer rest unused
      (text :: r.1, p :: r.2)
    | some b =>
      let r := merge_unused_go sim eng khmer rest (unused.erase b.idx)
      (b.text :: r.1, ⟨p.en, p.km, b.newScore⟩ :: r.2)

/-- The companion observer of `merge_unused_go` recording, in processing
order, which unused English index each pair merged (pairs that merged
nothing record nothing).  It performs the identical recursion and pool
threading; it exists so the merge bookkeeping can be stated. -/
def merge_choices (sim : String → String → ℚ) (eng khmer : List String) :
    List (Pair × String) → List Nat → List Nat
  | [], _ => []
  | (p, text) :: rest, unused =>
    match innerLoop sim eng (khmer.getD p.km "") text p.score unused none with
    | none => merge_choices sim eng khmer rest unused
    | some b => b.idx :: merge_choices sim eng khmer rest (unused.erase b.idx)

/-- `KhmerEnglishAligner._merge_unused_sentences`: seed the merged texts with
each pair's matched English sentence, form the unused pool
(`range(len(english_sentences))` minus the used set, in ascending order), and
run the merge loop. -/
def merge_unused_sentences (sim : String → String → ℚ) (pairs : List Pair)
    (eng khmer : List String) (used : List Nat) : List String × List Pair :=
  let mergedTexts := pairs.map fun p => eng.getD p.en ""
  let unused := (List.range eng.length).filter fun i => !(used.contains i)
  merge_unused_go sim eng khmer (pairs.zip mergedTexts) unused

/-- Input of `KhmerEnglishAligner.align`: a dict that may or may not carry
the `english` and `khmer` keys, each holding a sentence list. -/
structure AlignInput where
  english : Option (List String)
  khmer : Option (List String)
deriving DecidableEq

/-- The two explicit errors `align` raises: `KeyError` for a missing
`english`/`khmer` key and `ValueError` for an empty sentence list. -/
inductive AlignError
  | keyError
  | valueError
deriving DecidableEq

/-- Output of `align`: the aligned `english` and `khmer` sentence lists. -/
structure AlignOutput where
  english : List String
  khmer : List String
deriving DecidableEq

/-- `KhmerEnglishAligner.align`: validate the input, find the initial best
matches, collect the used English indices, merge the unused English
sentences, and return merged English texts paired with the Khmer sentences
of the updated pairs. -/
def align (sim : String → String → ℚ) (data : AlignInput) :
    Except AlignError AlignOutput :=
  match data.english, data.khmer with
  | none, _ => .error .keyError
  | _, none => .error .keyError
  | some english_sentences, some khmer_sentences =>
    if english_sentences.isEmpty || khmer_sentences.isEmpty then
      .error .valueError
    else
      let pairs := find_best_matches sim english_sentences khmer_sentences
      let used := pairs.map Pair.en
      let merged :=
        merge_unused_sentences sim pairs english_sentences khmer_sentences used
      .ok ⟨merged.1, merged.2.map fun p => khmer_sentences.getD p.km ""⟩

/-! ## Khmer sentence reconstruction (`join_khmer_sentences`)

Two variants exist: `src/Celery/scraper.py` works on the fragment list it is
given, `src/MoFA.py` first restricts to fragments its own `detect_language`
classifies as Khmer.  Both share the identical accumulation loop.
-/

/-- Python `str.strip()`: drop leading and trailing whitespace. -/
def pyStrip (s : String) : String :=
  ⟨((s.data.dropWhile Char.isWhitespace).reverse.dropWhile
      Char.isWhitespace).reverse⟩

/-- Python `item.endswith("។")`: the last character is the Khmer sentence
terminator U+17D4. -/
def endsWithKhmerDot (s : String) : Bool :=
  match s.data.getLast? with
  | some c => c = '។'
  | none => false

/-- The accumulation loop shared by both `join_khmer_sentences` variants:
fragments not ending in `។` are accumulated into `temp` with a trailing
space; a fragment ending in `។` flushes the accumulation (emitting
`temp + item`) or is emitted alone; a leftover accumulation is emitted
stripped at the end. -/
def joinLoop : List String → String → List String
  | [], temp => if temp ≠ "" then [pyStrip temp] else []
  | item :: rest, temp =>
    let item := pyStrip item
    if !(endsWithKhmerDot item) then joinLoop rest (temp ++ item ++ " ")
    else if temp ≠ "" then (temp ++ item) :: joinLoop rest ""
    else item :: joinLoop rest ""

namespace Celery

/-- `MoFAWebScraper.join_khmer_sentences` of `src/Celery/scraper.py`: if no
fragment contains `។` the list is returned as-is; otherwise the first
fragment (topic/title) is kept untouched and the rest run through the
accumulation loop. -/
def join_khmer_sentences (data : List String) : List String :=
  if !(data.any fun item => ('។' ∈ item.data)) then data
  else
    let itemsToProcess := if 1 < data.length then data.drop 1 else []
    (if 0 < data.length then [data.headD ""] else []) ++ joinLoop itemsToProcess ""

end Celery

namespace MoFA

/-- `MoFAWebScraper.join_khmer_sentences` of `src/MoFA.py`: first filter to
fragments `detect_language` classifies as Khmer; return `[]` when none
remain; return the filtered list as-is when no retained fragment contains
`។`; otherwise keep the first retained fragment untouched and run the rest
through the accumulation loop. -/
def join_khmer_sentences (data : List String) : List String :=
  let khmerTexts := data.filter fun t => detect_language t = "khmer"
  if khmerTexts.isEmpty then []
  else if !(khmerTexts.any fun item => ('។' ∈ item.data)) then khmerTexts
  else
    let itemsToProcess := if 1 < khmerTexts.length then khmerTexts.drop 1 else []
    (if 0 < khmerTexts.length then [khmerTexts.headD ""] else []) ++
      joinLoop itemsToProcess ""

end MoFA

/-! ## The symbol-only fragment filter (`src/main.py`, `is_symbol_only_text`) -/

/-- The fifteen characters whose 3+ repetitions the regex patterns of
`is_symbol_only_text` recognise (`^[*]{3,}$`, `^[-]{3,}$`, ...). -/
def symbolPatternChars : List Char :=
  ['*', '-', '.', '=', '_', '#', '+', '~', '!', '@', '%', '&', '|', '\\', '/']

/-- Model of Python `str.isalnum` on the character repertoire this scraper
handles: ASCII letters and digits, Khmer letters (U+1780–U+17B3) and Khmer
digits (U+17E0–U+17E9).  The symbol characters, ASCII punctuation and
whitespace are not alphanumeric under either Python or this model. -/
def isalnum (c : Char) : Bool :=
  c.isAlphanum || (0x1780 ≤ c.val && c.val ≤ 0x17B3) ||
    (0x17E0 ≤ c.val && c.val ≤ 0x17E9)

/-- `MoFAWebScraper.is_symbol_only_text` of `src/main.py`: empty or
whitespace-only text is symbol-only; a run of 3+ copies of one of the fifteen
pattern characters is symbol-only (each regex `^[c]{3,}$` matches exactly the
strings of 3 or more copies of `c`); otherwise text whose non-space
characters are all non-alphanumeric and fewer than 10 is symbol-only; all
other text is kept. -/
def is_symbol_only_text (text : String) : Bool :=
  if text.data = [] then true
  else
    let clean := (pyStrip text).data
    if clean = [] then true
    else if symbolPatternChars.any
        (fun c => 3 ≤ clean.length && clean.all (fun x => x = c)) then true
    else
      let noSpace := clean.filter fun c => c ≠ ' '
      if !noSpace.isEmpty && noSpace.all (fun c => !(isalnum c)) &&
          noSpace.length < 10 then true
      else false

/-! ## The fetcher model and `scrape_url_sync` (`src/Celery/scraper.py`)

The HTTP world is an external collaborator: `world n` is the outcome the
`n`-th request issued by a call would get.  `requestError` covers every
`requests` exception (connection error, timeout, and the HTTP status errors
`raise_for_status` raises); a delivered response carries a content type and
the content `extract_content` would extract from its body (extraction is
orthogonal to the fetch logic and abstracted into the outcome). -/

/-- Extracted page content: the `english` and `khmer` text lists of
`extract_content`. -/
structure Content where
  english : List String
  khmer : List String
deriving DecidableEq

/-- Outcome of one HTTP request. -/
inductive FetchOutcome
  | requestError
  | success (contentType : String) (content : Content)
deriving DecidableEq

/-- Python `needle in hay` on strings, as character lists: some rotation of
`hay` starts with `needle`. -/
def containsSubstring (hay needle : List Char) : Bool :=
  (List.range (hay.length + 1)).any fun i => needle.isPrefixOf (hay.drop i)

/-- Observable trace of one `scrape_url_sync` call: the returned value, how
many HTTP requests were issued, and the sleeps performed (in seconds). -/
structure SyncFetchTrace where
  result : Option Content
  requestsMade : Nat
  waits : List ℚ
deriving DecidableEq

/-- `MoFAWebScraper.scrape_url_sync` of `src/Celery/scraper.py`: sleep the
politeness delay, issue one request; any `requests` exception returns `None`;
a response whose lowered content type does not contain `"html"` returns
`None`; otherwise the extracted content is returned.  No code path issues a
second request. -/
def scrape_url_sync (world : Nat → FetchOutcome) (delay : ℚ) : SyncFetchTrace :=
  match world 0 with
  | .requestError => ⟨none, 1, [delay]⟩
  | .success contentType content =>
    if containsSubstring (contentType.data.map Char.toLower) "html".data then
      ⟨some content, 1, [delay]⟩
    else
      ⟨none, 1, [delay]⟩

/-! ## URL validation and the schedulers -/

/-- Result of `urllib.parse.urlparse` as far as `validate_url` reads it.  The
URL parser is standard-library code, modelled as an external collaborator
`up : String → UrlParts`. -/
structure UrlParts where
  scheme : String
  netloc : String

/-- `MoFAWebScraper.validate_url` (identical in `src/Celery/scraper.py`,
`src/MoFA.py` and `src/MoFA/MoFA.py`): a URL is valid iff its parse has a
non-empty scheme and a non-empty netloc (the domain check only logs). -/
def validate_url (up : String → UrlParts) (url : String) : Bool :=
  !((up url).scheme == "") && !((up url).netloc == "")

/-- One CSV row written by `scrape_and_save_paired_content`
(`ID`, `English_Text`, `Khmer_Text`). -/
structure Row where
  id : Nat
  englishText : String
  khmerText : String
deriving DecidableEq

/-- The rows `scrape_and_save_paired_content` emits for the URL at 1-based
position `idx`: one row per index up to the longer of the two text lists,
each carrying `idx` as its `ID` and empty strings past the shorter list. -/
def pairedRowsFor (idx : Nat) (enTexts khTexts : List String) : List Row :=
  (List.range (max enTexts.length khTexts.length)).map fun i =>
    ⟨idx, enTexts.getD i "", khTexts.getD i ""⟩

/-- The URL loop of `scrape_and_save_paired_content` of
`src/Celery/tasks.py`, with `idx` the 1-based position of the next URL:
invalid URLs are skipped (`continue`), otherwise the English-mode and
Khmer-mode scrapes run (`scrapeEn`/`scrapeKh` model `scrape_url_sync` of the
two scraper instances) and the paired rows are appended. -/
def pairedContentGo (up : String → UrlParts)
    (scrapeEn scrapeKh : String → Option Content) :
    Nat → List String → List Row
  | _, [] => []
  | idx, url :: rest =>
    if !(validate_url up url) then pairedContentGo up scrapeEn scrapeKh (idx + 1) rest
    else
      let enTexts := match scrapeEn url with | some c => c.english | none => []
      let khTexts := match scrapeKh url with | some c => c.khmer | none => []
      pairedRowsFor idx enTexts khTexts ++
        pairedContentGo up scrapeEn scrapeKh (idx + 1) rest

/-- `scrape_and_save_paired_content` of `src/Celery/tasks.py`, modelled as
the ordered list of CSV rows it writes. -/
def scrape_and_save_paired_content (up : String → UrlParts)
    (scrapeEn scrapeKh : String → Option Content) (urls : List String) :
    List Row :=
  pairedContentGo up scrapeEn scrapeKh 1 urls

/-- One per-URL result dict of `scrape_multiple_urls`
(`id`, `url`, `english_texts`, `khmer_texts`). -/
structure UrlResult where
  id : Nat
  url : String
  english_texts : List String
  khmer_texts : List String
deriving DecidableEq

/-- The URL loop of `MoFAWebScraper.scrape_multiple_urls` of
`src/MoFA/MoFA.py`, with `i` the 1-based position of the next URL: a URL
failing validation is skipped (`continue`, no result); a scrape returning
content appends a full result; a failed scrape (`scrape_url` returns `None`,
having caught every exception internally) appends a placeholder with empty
text lists. -/
def scrapeMultipleGo (up : String → UrlParts)
    (scrape : String → Option Content) : Nat → List String → List UrlResult
  | _, [] => []
  | i, url :: rest =>
    if !(validate_url up url) then scrapeMultipleGo up scrape (i + 1) rest
    else
      match scrape url with
      | some c => ⟨i, url, c.english, c.khmer⟩ :: scrapeMultipleGo up scrape (i + 1) rest
      | none => ⟨i, url, [], []⟩ :: scrapeMultipleGo up scrape (i + 1) rest

/-- `MoFAWebScraper.scrape_multiple_urls` of `src/MoFA/MoFA.py` (the
synchronous scheduler the claim cites). -/
def scrape_multiple_urls (up : String → UrlParts)
    (scrape : String → Option Content) (urls : List String) : List UrlResult :=
  scrapeMultipleGo up scrape 1 urls

/-- Specification-style restatement of the scheduler contract as the code
satisfies it: enumerate the URLs from 1, keep those passing validation, and
map each to its result (full on a successful scrape, placeholder on a failed
one).  Used to compare `scrape_multiple_urls` against the amended claim. -/
def scrapeMultipleUrlsSpec (up : String → UrlParts)
    (scrape : String → Option Content) (urls : List String) : List UrlResult :=
  ((urls.enumFrom 1).filter fun p => validate_url up p.2).map fun p =>
    match scrape p.2 with
    | some c => ⟨p.1, p.2, c.english, c.khmer⟩
    | none => ⟨p.1, p.2, [], []⟩

/-! ## Helper lemmas -/

theorem dropWhile_eq_self_of_forall {p : Char → Bool} :
    ∀ l : List Char, (∀ c ∈ l, ¬ p c) → l.dropWhile p = l := by
  intro l h
  cases l with
  | nil => rfl
  | cons a t =>
    rw [List.dropWhile_cons, if_neg]
    simp only [Bool.not_eq_true] at h
    simp [h a (List.mem_cons_self a t)]

theorem pyStrip_eq_self {s : String} (h : ∀ c ∈ s.data, ¬ c.isWhitespace) :
    pyStrip s = s := by
  have h₁ : s.data.dropWhile Char.isWhitespace = s.data :=
    dropWhile_eq_self_of_forall _ h
  have h₂ : s.data.reverse.dropWhile Char.isWhitespace = s.data.reverse :=
    dropWhile_eq_self_of_forall _ (fun c hc => h c (List.mem_reverse.mp hc))
  rw [pyStrip, h₁, h₂, List.reverse_reverse]

theorem total_chars_eq_zero_of_spaces {s : String} (h : ∀ c ∈ s.data, c = ' ') :
    total_chars s = 0 := by
  rw [total_chars, List.length_eq_zero, List.filter_eq_nil_iff]
  intro c hc
  simp [h c hc]

theorem total_chars_ne_zero_of_khmerRatio {s : String}
    (h : khmerRatio s ≠ 0) : total_chars s ≠ 0 := by
  intro h0
  apply h
  rw [khmerRatio, h0]
  norm_num

theorem total_chars_ne_zero_of_englishRatio {s : String}
    (h : englishRatio s ≠ 0) : total_chars s ≠ 0 := by
  intro h0
  apply h
  rw [englishRatio, h0]
  norm_num

theorem data_ne_nil_of_total_chars {s : String} (h : total_chars s ≠ 0) :
    s.data ≠ [] := by
  intro h0
  apply h
  rw [total_chars, h0]
  rfl

/-! ## C10: `detect_language` on empty and space-only strings -/

/-- C10: for the empty string and for every string consisting only of space
characters, `detect_language` returns `english` — never `mixed` or `khmer` —
because the empty/zero-character guards fire before any ratio is computed. -/
theorem detect_language_space_only (s : String) (h : ∀ c ∈ s.data, c = ' ') :
    detect_language s = "english" := by
  rw [detect_language]
  by_cases hd : s.data = []
  · rw [if_pos hd]
  · rw [if_neg hd, if_pos (total_chars_eq_zero_of_spaces h)]

/-- Concrete instance of `detect_language_space_only`: the empty string and a
three-space string are both classified `english`. -/
theorem detect_language_space_only_witness :
    detect_language "" = "english" ∧ detect_language "   " = "english" :=
  ⟨detect_language_space_only "" (by decide),
   detect_language_space_only "   " (by decide)⟩

/-! ## C3: the explicit input errors of `align` -/

/-- C3: `align` raises `KeyError` exactly when the `english` or `khmer` key
is missing; with both keys present it raises `ValueError` iff at least one
sentence list is empty; with both keys present and both lists non-empty no
alignment-input error is raised. -/
theorem align_input_errors (sim : String → String → ℚ) :
    (∀ inp : AlignInput, inp.english = none ∨ inp.khmer = none →
      align sim inp = .error .keyError) ∧
    (∀ e k : List String, (e = [] ∨ k = []) →
      align sim ⟨some e, some k⟩ = .error .valueError) ∧
    (∀ e k : List String, e ≠ [] → k ≠ [] →
      ∃ out, align sim ⟨some e, some k⟩ = .ok out) := by
  refine ⟨?_, ?_, ?_⟩
  · rintro ⟨eo, ko⟩ (h | h) <;> simp only at h <;> subst h
    · cases ko <;> rfl
    · cases eo <;> rfl
  · intro e k h
    rcases h with h | h <;> subst h <;> simp [align]
  · intro e k he hk
    simp only [align]
    rw [if_neg (by simp [List.isEmpty_iff, he, hk])]
    exact ⟨_, rfl⟩

/-- Concrete instances of `align_input_errors`: a missing `english` key gives
`KeyError`, an empty English list gives `ValueError`, and a well-formed input
aligns without error. -/
theorem align_input_errors_witness :
    align (fun _ _ => (0 : ℚ)) ⟨none, some ["ក"]⟩ = .error .keyError ∧
    align (fun _ _ => (0 : ℚ)) ⟨some [], some ["ក"]⟩ = .error .valueError ∧
    ∃ out, align (fun _ _ => (0 : ℚ)) ⟨some ["a"], some ["ក"]⟩ = .ok out :=
  ⟨(align_input_errors _).1 _ (Or.inl rfl),
   (align_input_errors _).2.1 _ _ (Or.inl rfl),
   (align_input_errors _).2.2 _ _ (by decide) (by decide)⟩

/-! ## C4: `join_khmer_sentences` without a sentence terminator -/

/-- C4 counterexample: the claim says a fragment list in which no (joinable)
fragment contains `។` is passed through unchanged, but the `src/MoFA.py`
variant first filters the input to fragments classified Khmer, so the
all-English input `["Hello"]` — which contains no `។` anywhere — comes back
as `[]`, not unchanged. -/
theorem join_khmer_counterexample :
    MoFA.join_khmer_sentences ["Hello"] = [] ∧
    MoFA.join_khmer_sentences ["Hello"] ≠ (["Hello"] : List String) := by
  have hd : detect_language "Hello" = "english" := by
    rw [detect_language, if_neg (by decide), if_neg (by decide),
      if_neg (by
        rw [khmerRatio, show khmer_chars "Hello" = 0 from by decide,
          show total_chars "Hello" = 5 from by decide]
        norm_num),
      if_pos (by
        rw [englishRatio, show english_chars "Hello" = 5 from by decide,
          show total_chars "Hello" = 5 from by decide]
        norm_num)]
  have hfilter :
      (["Hello"] : List String).filter (fun t => detect_language t = "khmer") = [] := by
    simp [List.filter, hd]
  constructor
  · rw [MoFA.join_khmer_sentences]
    simp [hfilter]
  · rw [MoFA.join_khmer_sentences]
    simp [hfilter]

/-- C4 amended: the Celery reconstructor returns its input unchanged when no
input fragment contains `។`; the `src/MoFA.py` variant first restricts the
input to the fragments its `detect_language` classifies as Khmer and, when
no retained fragment contains `។`, returns that restriction unchanged in
original order (so the full input is returned unchanged exactly when every
fragment classifies as Khmer). -/
theorem join_khmer_no_terminator_passthrough :
    (∀ data : List String, (∀ item ∈ data, ('។' ∉ item.data)) →
      Celery.join_khmer_sentences data = data) ∧
    (∀ data : List String,
      (∀ item ∈ data.filter (fun t => detect_language t = "khmer"),
        ('។' ∉ item.data)) →
      MoFA.join_khmer_sentences data =
        data.filter (fun t => detect_language t = "khmer")) := by
  constructor
  · intro data h
    rw [Celery.join_khmer_sentences, if_pos]
    simp only [Bool.not_eq_true', List.any_eq_false, decide_eq_true_eq]
    exact h
  · intro data h
    rw [MoFA.join_khmer_sentences]
    by_cases hemp :
        (data.filter (fun t => detect_language t = "khmer")).isEmpty
    · rw [if_pos hemp]
      exact (List.isEmpty_iff.mp hemp).symm
    · rw [if_neg hemp, if_pos]
      simp only [Bool.not_eq_true', List.any_eq_false, decide_eq_true_eq]
      exact h

/-- Concrete instance of `join_khmer_no_terminator_passthrough`: a
terminator-free fragment list passes through the Celery reconstructor
unchanged, and a terminator-free all-Khmer list passes through the
`src/MoFA.py` variant unchanged. -/
theorem join_khmer_no_terminator_passthrough_witness :
    Celery.join_khmer_sentences ["ab", "cd"] = ["ab", "cd"] ∧
    MoFA.join_khmer_sentences ["កខគ", "ឃងច"] =
      (["កខគ", "ឃងច"] : List String).filter
        (fun t => detect_language t = "khmer") :=
  ⟨join_khmer_no_terminator_passthrough.1 ["ab", "cd"] (by decide),
   join_khmer_no_terminator_passthrough.2 ["កខគ", "ឃងច"] (by
    intro item hmem
    have hm := List.mem_of_mem_filter hmem
    fin_cases hm <;> decide)⟩

/-! ## C8: the classifier ratio boundaries -/

/-- C8 counterexample: the claim says a string whose Khmer ratio is exactly
0.3 is classified Mixed, but the Khmer-ratio test is only the first branch:
`"កកកabcdef7"` has Khmer ratio exactly 3/10 and Latin ratio 6/10, and
`detect_language` classifies it `english`, not `mixed`. -/
theorem detect_language_boundary_counterexample :
    khmerRatio "កកកabcdef7" = 3 / 10 ∧
    detect_language "កកកabcdef7" ≠ "mixed" ∧
    detect_language "កកកabcdef7" = "english" := by
  have hk : khmerRatio "កកកabcdef7" = 3 / 10 := by
    rw [khmerRatio, show khmer_chars "កកកabcdef7" = 3 from by decide,
      show total_chars "កកកabcdef7" = 10 from by decide]
    norm_num
  have he : detect_language "កកកabcdef7" = "english" := by
    rw [detect_language, if_neg (by decide), if_neg (by decide),
      if_neg (by rw [hk]; norm_num),
      if_pos (by
        rw [englishRatio, show english_chars "កកកabcdef7" = 6 from by decide,
          show total_chars "កកកabcdef7" = 10 from by decide]
        norm_num)]
  exact ⟨hk, by rw [he]; decide, he⟩

/-- C8 amended: a string whose Khmer ratio is exactly 0.3 is never classified
Khmer, and is Mixed provided its Latin ratio is at most 0.5 (otherwise the
Latin branch classifies it English); at Khmer ratio 0.31 it is always Khmer;
a string whose Latin ratio is exactly 0.5 is Mixed provided its Khmer ratio
is at most 0.3; at Latin ratio 0.51 with Khmer ratio at most 0.3 it is
English. -/
theorem detect_language_boundary :
    (∀ s : String, khmerRatio s = 3 / 10 → detect_language s ≠ "khmer") ∧
    (∀ s : String, khmerRatio s = 3 / 10 → englishRatio s ≤ 1 / 2 →
      detect_language s = "mixed") ∧
    (∀ s : String, khmerRatio s = 31 / 100 → detect_language s = "khmer") ∧
    (∀ s : String, englishRatio s = 1 / 2 → khmerRatio s ≤ 3 / 10 →
      detect_language s = "mixed") ∧
    (∀ s : String, englishRatio s = 51 / 100 → khmerRatio s ≤ 3 / 10 →
      detect_language s = "english") := by
  refine ⟨?_, ?_, ?_, ?_, ?_⟩
  · intro s h
    rw [detect_language]
    by_cases hd : s.data = []
    · rw [if_pos hd]; decide
    · rw [if_neg hd]
      by_cases ht : total_chars s = 0
      · rw [if_pos ht]; decide
      · rw [if_neg ht, if_neg (by rw [h]; norm_num)]
        split <;> decide
  · intro s h hle
    have ht : total_chars s ≠ 0 :=
      total_chars_ne_zero_of_khmerRatio (by rw [h]; norm_num)
    rw [detect_language, if_neg (data_ne_nil_of_total_chars ht), if_neg ht,
      if_neg (by rw [h]; norm_num), if_neg (not_lt.mpr hle)]
  · intro s h
    have ht : total_chars s ≠ 0 :=
      total_chars_ne_zero_of_khmerRatio (by rw [h]; norm_num)
    rw [detect_language, if_neg (data_ne_nil_of_total_chars ht), if_neg ht,
      if_pos (by rw [h]; norm_num)]
  · intro s h hle
    have ht : total_chars s ≠ 0 :=
      total_chars_ne_zero_of_englishRatio (by rw [h]; norm_num)
    rw [detect_language, if_neg (data_ne_nil_of_total_chars ht), if_neg ht,
      if_neg (not_lt.mpr hle), if_neg (by rw [h]; norm_num)]
  · intro s h hle
    have ht : total_chars s ≠ 0 :=
      total_chars_ne_zero_of_englishRatio (by rw [h]; norm_num)
    rw [detect_language, if_neg (data_ne_nil_of_total_chars ht), if_neg ht,
      if_neg (not_lt.mpr hle), if_pos (by rw [h]; norm_num)]

/-- Concrete instances of `detect_language_boundary` at all five boundaries:
Khmer ratio 3/10 with no Latin letters is Mixed and not Khmer; Khmer ratio
31/100 is Khmer; Latin ratio 1/2 with no Khmer characters is Mixed; Latin
ratio 51/100 with no Khmer characters is English. -/
theorem detect_language_boundary_witness :
    detect_language "កកក1234567" ≠ "khmer" ∧
    detect_language "កកក1234567" = "mixed" ∧
    detect_language ⟨List.replicate 31 'ក' ++ List.replicate 69 '1'⟩ = "khmer" ∧
    detect_language "abcde12345" = "mixed" ∧
    detect_language ⟨List.replicate 51 'a' ++ List.replicate 49 '1'⟩ = "english" := by
  have h₁ : khmerRatio "កកក1234567" = 3 / 10 := by
    rw [khmerRatio, show khmer_chars "កកក1234567" = 3 from by decide,
      show total_chars "កកក1234567" = 10 from by decide]
    norm_num
  have h₂ : englishRatio "កកក1234567" ≤ 1 / 2 := by
    rw [englishRatio, show english_chars "កកក1234567" = 0 from by decide,
      show total_chars "កកក1234567" = 10 from by decide]
    norm_num
  have h₃ : khmerRatio ⟨List.replicate 31 'ក' ++ List.replicate 69 '1'⟩ = 31 / 100 := by
    rw [khmerRatio,
      show khmer_chars ⟨List.replicate 31 'ក' ++ List.replicate 69 '1'⟩ = 31 from by decide,
      show total_chars ⟨List.replicate 31 'ក' ++ List.replicate 69 '1'⟩ = 100 from by decide]
    norm_num
  have h₄ : englishRatio "abcde12345" = 1 / 2 := by
    rw [englishRatio, show english_chars "abcde12345" = 5 from by decide,
      show total_chars "abcde12345" = 10 from by decide]
    norm_num
  have h₅ : khmerRatio "abcde12345" ≤ 3 / 10 := by
    rw [khmerRatio, show khmer_chars "abcde12345" = 0 from by decide,
      show total_chars "abcde12345" = 10 from by decide]
    norm_num
  have h₆ : englishRatio ⟨List.replicate 51 'a' ++ List.replicate 49 '1'⟩ = 51 / 100 := by
    rw [englishRatio,
      show english_chars ⟨List.replicate 51 'a' ++ List.replicate 49 '1'⟩ = 51 from by decide,
      show total_chars ⟨List.replicate 51 'a' ++ List.replicate 49 '1'⟩ = 100 from by decide]
    norm_num
  have h₇ : khmerRatio ⟨List.replicate 51 'a' ++ List.replicate 49 '1'⟩ ≤ 3 / 10 := by
    rw [khmerRatio,
      show khmer_chars ⟨List.replicate 51 'a' ++ List.replicate 49 '1'⟩ = 0 from by decide,
      show total_chars ⟨List.replicate 51 'a' ++ List.replicate 49 '1'⟩ = 100 from by decide]
    norm_num
  exact ⟨detect_language_boundary.1 _ h₁,
    detect_language_boundary.2.1 _ h₁ h₂,
    detect_language_boundary.2.2.1 _ h₃,
    detect_language_boundary.2.2.2.1 _ h₄ h₅,
    detect_language_boundary.2.2.2.2 _ h₆ h₇⟩

/-! ## C9: the symbol-only fragment filter -/

theorem isWhitespace_of_isalnum {c : Char} (h : isalnum c = true) :
    ¬ c.isWhitespace := by
  intro hw
  have hval : c = ' ' ∨ c = '\t' ∨ c = '\x0d' ∨ c = '\n' := by
    simpa [Char.isWhitespace, or_assoc] using hw
  rcases hval with h1 | h1 | h1 | h1 <;> subst h1 <;> simp [isalnum] at h

theorem mem_dropWhile_of_not {p : Char → Bool} {a : Char} (ha : ¬ p a) :
    ∀ l : List Char, a ∈ l → a ∈ l.dropWhile p := by
  intro l
  induction l with
  | nil => intro h; exact absurd h (List.not_mem_nil a)
  | cons b t ih =>
    intro h
    rw [List.dropWhile_cons]
    by_cases hb : p b
    · rw [if_pos hb]
      rcases List.mem_cons.mp h with rfl | hmem
      · exact absurd hb ha
      · exact ih hmem
    · rw [if_neg hb]
      exact h

theorem mem_pyStrip_of_not_whitespace {s : String} {a : Char}
    (ha : ¬ a.isWhitespace) (h : a ∈ s.data) : a ∈ (pyStrip s).data := by
  rw [pyStrip]
  apply List.mem_reverse.mpr
  apply mem_dropWhile_of_not ha
  apply List.mem_reverse.mpr
  exact mem_dropWhile_of_not ha _ h

/-- C9 counterexample: the claim says every fragment consisting solely of 3+
repeated punctuation characters is excluded, but the regex patterns cover
only fifteen specific characters and the all-symbols fallback requires fewer
than 10 non-space characters; ten repeated question marks — solely 3+
repetitions of one punctuation character — are therefore kept. -/
theorem is_symbol_only_counterexample :
    ("??????????" : String).data = List.replicate 10 '?' ∧
    is_symbol_only_text "??????????" = false := by
  decide

/-- C9 amended: a run of 3 or more copies of one of the fifteen pattern
characters (`* - . = _ # + ~ ! @ % & | \ /`) is excluded; a non-empty
whitespace-free fragment of fewer than 10 characters, none of them
alphanumeric, is excluded; and every fragment containing at least one
alphanumeric character is kept regardless of punctuation density. -/
theorem is_symbol_only_spec :
    (∀ c ∈ symbolPatternChars, ∀ n : Nat, 3 ≤ n →
      is_symbol_only_text ⟨List.replicate n c⟩ = true) ∧
    (∀ s : String, (∃ c ∈ s.data, isalnum c) →
      is_symbol_only_text s = false) ∧
    (∀ s : String, s.data ≠ [] →
      (∀ c ∈ s.data, ¬ c.isWhitespace ∧ ¬ isalnum c) →
      s.data.length < 10 → is_symbol_only_text s = true) := by
  refine ⟨?_, ?_, ?_⟩
  · intro c hc n hn
    have hcw : ¬ c.isWhitespace := by fin_cases hc <;> decide
    have hdata : (⟨List.replicate n c⟩ : String).data = List.replicate n c := rfl
    have hne : List.replicate n c ≠ [] := by
      simp only [ne_eq, List.replicate_eq_nil_iff]
      omega
    have hstrip : pyStrip ⟨List.replicate n c⟩ = ⟨List.replicate n c⟩ :=
      pyStrip_eq_self (by
        rw [hdata]
        intro x hx
        rw [List.eq_of_mem_replicate hx]
        exact hcw)
    rw [is_symbol_only_text, if_neg (by rw [hdata]; exact hne), hstrip]
    rw [if_neg (by rw [hdata]; exact hne), if_pos]
    rw [List.any_eq_true]
    refine ⟨c, hc, ?_⟩
    rw [hdata]
    simp only [List.length_replicate, Bool.and_eq_true, decide_eq_true_eq,
      List.all_eq_true]
    exact ⟨hn, fun x hx => by rw [List.eq_of_mem_replicate hx]⟩
  · rintro s ⟨a, hmem, ha⟩
    have haw : ¬ a.isWhitespace := isWhitespace_of_isalnum ha
    have hclean : a ∈ (pyStrip s).data := mem_pyStrip_of_not_whitespace haw hmem
    have hd : s.data ≠ [] := by
      intro h0
      rw [h0] at hmem
      exact List.not_mem_nil a hmem
    rw [is_symbol_only_text, if_neg hd,
      if_neg (fun h0 => by rw [h0] at hclean; exact List.not_mem_nil a hclean),
      if_neg, if_neg]
    · intro hcond
      simp only [Bool.and_eq_true, Bool.not_eq_true', List.all_eq_true] at hcond
      have hasp : a ≠ ' ' := by
        intro h0
        rw [h0] at ha
        simp [isalnum] at ha
      have : a ∈ (pyStrip s).data.filter fun c => c ≠ ' ' := by
        rw [List.mem_filter]
        exact ⟨hclean, by simp [hasp]⟩
      have := hcond.1.2 a this
      rw [ha] at this
      exact absurd this (by decide)
    · intro hany
      rw [List.any_eq_true] at hany
      obtain ⟨c, hc, hprop⟩ := hany
      simp only [Bool.and_eq_true, decide_eq_true_eq, List.all_eq_true] at hprop
      have := hprop.2 a hclean
      rw [this] at ha
      have hcna : isalnum c = false := by fin_cases hc <;> decide
      rw [ha] at hcna
      cases hcna
  · intro s hne hall hlen
    have hstrip : pyStrip s = s :=
      pyStrip_eq_self (fun c hc => (hall c hc).1)
    rw [is_symbol_only_text, if_neg hne, hstrip, if_neg hne]
    by_cases hpat : symbolPatternChars.any
        (fun c => 3 ≤ s.data.length && s.data.all fun x => x = c)
    · rw [if_pos hpat]
    · rw [if_neg hpat, if_pos]
      have hfil : s.data.filter (fun c => c ≠ ' ') = s.data := by
        rw [List.filter_eq_self]
        intro c hc
        have : c ≠ ' ' := by
          intro h0
          apply (hall c hc).1
          rw [h0]
          decide
        simp [this]
      rw [hfil]
      simp only [Bool.and_eq_true, Bool.not_eq_true', List.all_eq_true,
        decide_eq_true_eq, Bool.not_eq_true]
      refine ⟨⟨by simp [List.isEmpty_iff, hne], fun c hc => ?_⟩, hlen⟩
      have := (hall c hc).2
      simp only [Bool.not_eq_true] at this
      exact this

/-- Concrete instances of `is_symbol_only_spec`: four asterisks are excluded,
`"a???"` (containing the alphanumeric `a`) is kept, and the short symbol pair
`"()"` is excluded. -/
theorem is_symbol_only_spec_witness :
    is_symbol_only_text ⟨List.replicate 4 '*'⟩ = true ∧
    is_symbol_only_text "a???" = false ∧
    is_symbol_only_text "()" = true :=
  ⟨is_symbol_only_spec.1 '*' (by decide) 4 (by decide),
   is_symbol_only_spec.2.1 "a???" ⟨'a', by decide, by decide⟩,
   is_symbol_only_spec.2.2 "()" (by decide) (by decide) (by decide)⟩

/-! ## C7: `scrape_url_sync` and the absence of a retry policy -/

/-- C7 counterexample: against a world whose first request fails transiently
and whose second request would succeed with HTML content, the claimed policy
(wait `D × 2^(attempt-1)` and retry up to `R` times) would retry and return
the content; `scrape_url_sync` instead returns `None` after exactly one
request, having slept only the fixed politeness delay. -/
theorem scrape_url_sync_counterexample :
    scrape_url_sync
      (fun n => if n = 0 then .requestError
        else .success "text/html" ⟨["Hello"], ["សួស្តី។"]⟩) 1 =
      ⟨none, 1, [1]⟩ :=
  rfl

/-- C7 amended: every call of `scrape_url_sync` issues exactly one HTTP
request and sleeps exactly once, the fixed politeness delay before the
request; a transient failure (connection error, timeout, HTTP error status)
returns `None` immediately with no retry and no backoff wait, and a
delivered response is returned as extracted content iff its lowered content
type contains `"html"`, also without any retry. -/
theorem scrape_url_sync_single_attempt (world : Nat → FetchOutcome) (delay : ℚ) :
    (scrape_url_sync world delay).requestsMade = 1 ∧
    (scrape_url_sync world delay).waits = [delay] ∧
    (world 0 = .requestError → (scrape_url_sync world delay).result = none) ∧
    (∀ ct c, world 0 = .success ct c →
      (scrape_url_sync world delay).result =
        (if containsSubstring (ct.data.map Char.toLower) "html".data then some c
          else none)) := by
  cases hw : world 0 with
  | requestError =>
    rw [scrape_url_sync, hw]
    refine ⟨rfl, rfl, fun _ => rfl, ?_⟩
    intro ct c hcontra
    cases hcontra
  | success ct c =>
    simp only [scrape_url_sync, hw]
    by_cases hhtml : containsSubstring (ct.data.map Char.toLower) "html".data
    · rw [if_pos hhtml]
      refine ⟨rfl, rfl, fun h => FetchOutcome.noConfusion h, ?_⟩
      rintro ct2 c2 h
      injection h with h1 h2
      subst h1; subst h2
      rw [if_pos hhtml]
    · rw [if_neg hhtml]
      refine ⟨rfl, rfl, fun h => FetchOutcome.noConfusion h, ?_⟩
      rintro ct2 c2 h
      injection h with h1 h2
      subst h1; subst h2
      rw [if_neg hhtml]

/-- Concrete instance of `scrape_url_sync_single_attempt`: one request, one
politeness sleep, and the HTML response is returned as content. -/
theorem scrape_url_sync_single_attempt_witness :
    (scrape_url_sync (fun _ => .success "text/html" ⟨["a"], ["ក"]⟩) 2).requestsMade = 1 ∧
    (scrape_url_sync (fun _ => .success "text/html" ⟨["a"], ["ក"]⟩) 2).result =
      some ⟨["a"], ["ក"]⟩ := by
  have h := scrape_url_sync_single_attempt
    (fun _ => .success "text/html" ⟨["a"], ["ក"]⟩) 2
  refine ⟨h.1, ?_⟩
  rw [h.2.2.2 "text/html" ⟨["a"], ["ក"]⟩ rfl, if_pos (by decide)]

/-! ## C5: the row IDs of `scrape_and_save_paired_content` -/

/-- C5 counterexample: the claim says CSV rows carry unique, strictly
increasing IDs starting at 1 and increasing by 1 per row, but
`scrape_and_save_paired_content` writes the 1-based URL index as the ID of
every row of that URL: a single URL yielding two text pairs produces the ID
sequence `[1, 1]`, which is neither unique nor strictly increasing. -/
theorem paired_content_ids_counterexample :
    ((scrape_and_save_paired_content (fun _ => ⟨"http", "x"⟩)
        (fun _ => some ⟨["a", "b"], []⟩) (fun _ => some ⟨[], ["x", "y"]⟩)
        ["u"]).map Row.id = [1, 1]) ∧
    ¬ List.Pairwise (· < ·)
      ((scrape_and_save_paired_content (fun _ => ⟨"http", "x"⟩)
        (fun _ => some ⟨["a", "b"], []⟩) (fun _ => some ⟨[], ["x", "y"]⟩)
        ["u"]).map Row.id) := by
  constructor
  · rfl
  · intro h
    have := List.rel_of_pairwise_cons h (List.mem_singleton.mpr rfl)
    exact absurd this (by decide)

theorem pairwise_of_forall {α : Type} {P : α → α → Prop} (h : ∀ a b, P a b) :
    ∀ l : List α, l.Pairwise P := by
  intro l
  induction l with
  | nil => exact .nil
  | cons a t ih => exact .cons (fun b _ => h a b) ih

theorem pairedContentGo_id_bounds (up : String → UrlParts)
    (scrapeEn scrapeKh : String → Option Content) :
    ∀ (urls : List String) (idx : Nat) r,
      r ∈ pairedContentGo up scrapeEn scrapeKh idx urls →
      idx ≤ r.id ∧ r.id < idx + urls.length := by
  intro urls
  induction urls with
  | nil => intro idx r h; exact absurd h (List.not_mem_nil r)
  | cons url rest ih =>
    intro idx r h
    rw [pairedContentGo] at h
    by_cases hv : validate_url up url
    · rw [if_neg (by simp [hv])] at h
      rcases List.mem_append.mp h with h1 | h1
      · rw [pairedRowsFor, List.mem_map] at h1
        obtain ⟨i, _, rfl⟩ := h1
        simp only [List.length_cons]
        omega
      · have := ih (idx + 1) r h1
        simp only [List.length_cons]
        omega
    · rw [if_pos (by simp [hv])] at h
      have := ih (idx + 1) r h
      simp only [List.length_cons]
      omega

theorem pairedContentGo_pairwise (up : String → UrlParts)
    (scrapeEn scrapeKh : String → Option Content) :
    ∀ (urls : List String) (idx : Nat),
      List.Pairwise (· ≤ ·)
        ((pairedContentGo up scrapeEn scrapeKh idx urls).map Row.id) := by
  intro urls
  induction urls with
  | nil => intro idx; exact .nil
  | cons url rest ih =>
    intro idx
    rw [pairedContentGo]
    by_cases hv : validate_url up url
    · rw [if_neg (by simp [hv]), List.map_append]
      rw [List.pairwise_append]
      refine ⟨?_, ih (idx + 1), ?_⟩
      · rw [List.pairwise_map, pairedRowsFor, List.pairwise_map]
        exact pairwise_of_forall (fun a b => le_refl _) _
      · intro x hx y hy
        rw [List.mem_map] at hx hy
        obtain ⟨rx, hrx, rfl⟩ := hx
        obtain ⟨ry, hry, rfl⟩ := hy
        rw [pairedRowsFor, List.mem_map] at hrx
        obtain ⟨i, _, rfl⟩ := hrx
        have := (pairedContentGo_id_bounds up scrapeEn scrapeKh rest (idx + 1)
          ry hry).1
        simp only
        omega
    · rw [if_pos (by simp [hv])]
      exact ih (idx + 1)

/-- C5 amended: every row written by `scrape_and_save_paired_content`
carries the 1-based input position of its source URL as its ID, so IDs lie
between 1 and the number of input URLs and are non-decreasing in emission
order; rows of the same URL share one ID and URLs skipped by validation
leave gaps, so IDs are neither unique nor strictly increasing per row. -/
theorem paired_content_ids_monotone (up : String → UrlParts)
    (scrapeEn scrapeKh : String → Option Content) (urls : List String) :
    List.Pairwise (· ≤ ·)
      ((scrape_and_save_paired_content up scrapeEn scrapeKh urls).map Row.id) ∧
    ∀ r ∈ scrape_and_save_paired_content up scrapeEn scrapeKh urls,
      1 ≤ r.id ∧ r.id ≤ urls.length := by
  refine ⟨pairedContentGo_pairwise up scrapeEn scrapeKh urls 1, ?_⟩
  intro r hr
  have := pairedContentGo_id_bounds up scrapeEn scrapeKh urls 1 r hr
  omega

/-- Concrete instance of `paired_content_ids_monotone` on a two-URL run. -/
theorem paired_content_ids_monotone_witness :
    List.Pairwise (· ≤ ·)
      ((scrape_and_save_paired_content (fun _ => ⟨"http", "x"⟩)
        (fun _ => some ⟨["a"], []⟩) (fun _ => some ⟨[], ["k"]⟩)
        ["u", "v"]).map Row.id) ∧
    ∀ r ∈ scrape_and_save_paired_content (fun _ => ⟨"http", "x"⟩)
        (fun _ => some ⟨["a"], []⟩) (fun _ => some ⟨[], ["k"]⟩) ["u", "v"],
      1 ≤ r.id ∧ r.id ≤ (["u", "v"] : List String).length :=
  paired_content_ids_monotone _ _ _ _

/-! ## C6: the per-URL results of `scrape_multiple_urls` (`src/MoFA/MoFA.py`) -/

/-- C6 counterexample: the claim says `scrape_multiple_urls` returns exactly
one result per input URL with a placeholder at the position of a URL failing
validation, but the `src/MoFA/MoFA.py` loop `continue`s over invalid URLs
without appending anything: of two input URLs, the first invalid, only one
result comes back. -/
theorem scrape_multiple_urls_counterexample :
    (scrape_multiple_urls
      (fun u => if u = "bad" then ⟨"", ""⟩ else ⟨"http", "x"⟩)
      (fun _ => some ⟨["e"], ["k"]⟩) ["bad", "good"]).length = 1 ∧
    (["bad", "good"] : List String).length = 2 := by
  constructor
  · rfl
  · rfl

theorem scrapeMultipleGo_eq_spec (up : String → UrlParts)
    (scrape : String → Option Content) :
    ∀ (urls : List String) (i : Nat),
      scrapeMultipleGo up scrape i urls =
        ((urls.enumFrom i).filter fun p => validate_url up p.2).map fun p =>
          match scrape p.2 with
          | some c => ⟨p.1, p.2, c.english, c.khmer⟩
          | none => ⟨p.1, p.2, [], []⟩ := by
  intro urls
  induction urls with
  | nil => intro i; rfl
  | cons url rest ih =>
    intro i
    rw [scrapeMultipleGo, List.enumFrom_cons, List.filter_cons]
    by_cases hv : validate_url up url
    · rw [if_neg (by simp [hv]), if_pos (by simpa using hv), List.map_cons,
        ih (i + 1)]
      cases scrape url <;> rfl
    · rw [if_pos (by simp [hv]), if_neg (by simpa using hv), ih (i + 1)]

/-- C6 amended: `scrape_multiple_urls` of `src/MoFA/MoFA.py` returns one
result per input URL that passes validation, in input order, each carrying
its 1-based input position as `id`; a valid URL whose scrape fails (fetch
error or non-HTML response, all caught inside `scrape_url`) yields a
placeholder with empty `english_texts` and `khmer_texts` at its position,
while a URL failing validation is skipped entirely and contributes no
result. -/
theorem scrape_multiple_urls_spec (up : String → UrlParts)
    (scrape : String → Option Content) (urls : List String) :
    scrape_multiple_urls up scrape urls = scrapeMultipleUrlsSpec up scrape urls :=
  scrapeMultipleGo_eq_spec up scrape urls 1

/-! ## Aligner lemmas (towards C1 and C2) -/

section AlignerLemmas

variable (sim : String → String → ℚ) (eng khmer : List String)
variable (kmText curText : String) (oldScore : ℚ)

theorem innerLoop_eq_none :
    ∀ (u : List Nat) (b : Option BestCand),
      innerLoop sim eng kmText curText oldScore u b = none →
      b = none ∧ u = [] := by
  intro u
  induction u with
  | nil => intro b h; exact ⟨h, rfl⟩
  | cons c rest ih =>
    intro b h
    simp only [innerLoop] at h
    have hacc := (ih _ h).1
    exfalso
    cases b with
    | none => simp at hacc
    | some b0 =>
      by_cases hk : (decide (b0.diff < sim (curText ++ " " ++ eng.getD c "") kmText - oldScore) : Bool)
      · rw [if_pos hk] at hacc
        cases hacc
      · rw [if_neg hk] at hacc
        cases hacc

theorem innerLoop_some_spec :
    ∀ (u : List Nat) (b : Option BestCand) (cand : BestCand),
      innerLoop sim eng kmText curText oldScore u b = some cand →
      b = some cand ∨
        (cand.idx ∈ u ∧
          cand.text = curText ++ " " ++ eng.getD cand.idx "" ∧
          cand.newScore = sim (curText ++ " " ++ eng.getD cand.idx "") kmText ∧
          cand.diff = sim (curText ++ " " ++ eng.getD cand.idx "") kmText - oldScore) := by
  intro u
  induction u with
  | nil => intro b cand h; exact Or.inl h
  | cons c rest ih =>
    intro b cand h
    simp only [innerLoop] at h
    rcases ih _ cand h with hacc | hrest
    · cases b with
      | none =>
        rw [if_pos rfl] at hacc
        injection hacc with hacc
        subst hacc
        exact Or.inr ⟨List.mem_cons_self c rest, rfl, rfl, rfl⟩
      | some b0 =>
        by_cases hlt :
            b0.diff < sim (curText ++ " " ++ eng.getD c "") kmText - oldScore
        · rw [if_pos (by simpa using hlt)] at hacc
          injection hacc with hacc
          subst hacc
          exact Or.inr ⟨List.mem_cons_self c rest, rfl, rfl, rfl⟩
        · rw [if_neg (by simpa using hlt)] at hacc
          exact Or.inl hacc
    · exact Or.inr ⟨List.mem_cons_of_mem c hrest.1, hrest.2⟩

theorem innerLoop_max :
    ∀ (u : List Nat) (b : Option BestCand) (cand : BestCand),
      innerLoop sim eng kmText curText oldScore u b = some cand →
      (∀ d ∈ u,
        sim (curText ++ " " ++ eng.getD d "") kmText - oldScore ≤ cand.diff) ∧
      (∀ b0 : BestCand, b = some b0 → b0.diff ≤ cand.diff) := by
  intro u
  induction u with
  | nil =>
    intro b cand h
    refine ⟨fun d hd => absurd hd (List.not_mem_nil d), fun b0 hb0 => ?_⟩
    rw [hb0] at h
    injection h with h
    rw [h]
  | cons c rest ih =>
    intro b cand h
    simp only [innerLoop] at h
    have ihres := ih _ cand h
    have hc :
        sim (curText ++ " " ++ eng.getD c "") kmText - oldScore ≤ cand.diff := by
      cases b with
      | none =>
        have := ihres.2 ⟨c, sim (curText ++ " " ++ eng.getD c "") kmText - oldScore,
          curText ++ " " ++ eng.getD c "",
          sim (curText ++ " " ++ eng.getD c "") kmText⟩ (by rw [if_pos rfl])
        exact this
      | some b0 =>
        by_cases hlt :
            b0.diff < sim (curText ++ " " ++ eng.getD c "") kmText - oldScore
        · have := ihres.2 ⟨c, sim (curText ++ " " ++ eng.getD c "") kmText - oldScore,
            curText ++ " " ++ eng.getD c "",
            sim (curText ++ " " ++ eng.getD c "") kmText⟩
            (by rw [if_pos (by simpa using hlt)])
          exact this
        · have hb0 := ihres.2 b0 (by rw [if_neg (by simpa using hlt)])
          exact le_trans (not_lt.mp hlt) hb0
    refine ⟨?_, ?_⟩
    · intro d hd
      rcases List.mem_cons.mp hd with rfl | hd2
      · exact hc
      · exact ihres.1 d hd2
    · intro b0 hb0
      subst hb0
      by_cases hlt :
          b0.diff < sim (curText ++ " " ++ eng.getD c "") kmText - oldScore
      · exact le_trans (le_of_lt hlt) hc
      · exact ihres.2 b0 (by rw [if_neg (by simpa using hlt)])

theorem merge_unused_go_length :
    ∀ (l : List (Pair × String)) (u : List Nat),
      (merge_unused_go sim eng khmer l u).1.length = l.length ∧
      (merge_unused_go sim eng khmer l u).2.length = l.length := by
  intro l
  induction l with
  | nil => intro u; exact ⟨rfl, rfl⟩
  | cons pt rest ih =>
    intro u
    obtain ⟨p, text⟩ := pt
    rw [merge_unused_go]
    cases innerLoop sim eng (khmer.getD p.km "") text p.score u none with
    | none =>
      simp only [List.length_cons]
      exact ⟨congrArg (· + 1) (ih u).1, congrArg (· + 1) (ih u).2⟩
    | some b =>
      simp only [List.length_cons]
      exact ⟨congrArg (· + 1) (ih (u.erase b.idx)).1,
        congrArg (· + 1) (ih (u.erase b.idx)).2⟩

theorem merge_unused_go_km :
    ∀ (l : List (Pair × String)) (u : List Nat),
      (merge_unused_go sim eng khmer l u).2.map Pair.km =
        l.map fun pt => pt.1.km := by
  intro l
  induction l with
  | nil => intro u; rfl
  | cons pt rest ih =>
    intro u
    obtain ⟨p, text⟩ := pt
    rw [merge_unused_go]
    cases innerLoop sim eng (khmer.getD p.km "") text p.score u none with
    | none => simp only [List.map_cons]; rw [ih u]
    | some b => simp only [List.map_cons]; rw [ih (u.erase b.idx)]

theorem merge_unused_go_texts_shape :
    ∀ (l : List (Pair × String)) (u : List Nat) (i : Nat), i < l.length →
      (merge_unused_go sim eng khmer l u).1.getD i "" = (l.getD i default).2 ∨
      ∃ c ∈ u, (merge_unused_go sim eng khmer l u).1.getD i "" =
        (l.getD i default).2 ++ " " ++ eng.getD c "" := by
  intro l
  induction l with
  | nil => intro u i h; exact absurd h (by simp)
  | cons pt rest ih =>
    intro u i h
    obtain ⟨p, text⟩ := pt
    rw [merge_unused_go]
    cases hinner : innerLoop sim eng (khmer.getD p.km "") text p.score u none with
    | none =>
      cases i with
      | zero => exact Or.inl rfl
      | succ j =>
        simp only [List.getD_cons_succ]
        rcases ih u j (by simpa using h) with h1 | ⟨c, hc, h1⟩
        · exact Or.inl h1
        · exact Or.inr ⟨c, hc, h1⟩
    | some b =>
      cases i with
      | zero =>
        rcases innerLoop_some_spec sim eng (khmer.getD p.km "") text p.score u
            none b hinner with hcontra | ⟨hmem, htext, _, _⟩
        · cases hcontra
        · exact Or.inr ⟨b.idx, hmem, by simpa using htext⟩
      | succ j =>
        simp only [List.getD_cons_succ]
        rcases ih (u.erase b.idx) j (by simpa using h) with h1 | ⟨c, hc, h1⟩
        · exact Or.inl h1
        · exact Or.inr ⟨c, List.erase_subset _ _ hc, h1⟩

theorem merge_choices_sound :
    ∀ (l : List (Pair × String)) (u : List Nat), u.Nodup →
      (merge_choices sim eng khmer l u).Nodup ∧
      ∀ c ∈ merge_choices sim eng khmer l u, c ∈ u := by
  intro l
  induction l with
  | nil => intro u _; exact ⟨.nil, by simp [merge_choices]⟩
  | cons pt rest ih =>
    intro u hu
    obtain ⟨p, text⟩ := pt
    cases hinner : innerLoop sim eng (khmer.getD p.km "") text p.score u none with
    | none =>
      simp only [merge_choices, hinner]
      exact ih u hu
    | some b =>
      simp only [merge_choices, hinner]
      have hmem : b.idx ∈ u := by
        rcases innerLoop_some_spec sim eng (khmer.getD p.km "") text p.score u
            none b hinner with hcontra | hspec
        · cases hcontra
        · exact hspec.1
      have herased := ih (u.erase b.idx) (hu.erase b.idx)
      refine ⟨List.nodup_cons.mpr ⟨?_, herased.1⟩, ?_⟩
      · intro hmem2
        exact (List.Nodup.not_mem_erase hu) (herased.2 _ hmem2)
      · intro c hc
        rcases List.mem_cons.mp hc with rfl | hc2
        · exact hmem
        · exact List.erase_subset _ _ (herased.2 c hc2)

end AlignerLemmas

/-! ## C2: one merge step of `_merge_unused_sentences` -/

/-- C2: pairs are processed in their initial order; for the pair at the head
of the remaining work list, if at least one unused English index remains,
exactly one unused index `c` — one maximizing `newScore - oldScore` over the
whole current pool, with no requirement that the difference be positive — is
chosen: its sentence is appended to the pair's text with a separating space,
the pair's score becomes the new merged score, and `c` is removed from the
pool before the remaining pairs are processed (so earlier pairs get first
choice); the recorded choices over the whole run are pairwise distinct, so no
unused English fragment is merged into more than one pair. -/
theorem merge_step (sim : String → String → ℚ) (eng khmer : List String)
    (p : Pair) (text : String) (rest : List (Pair × String)) (u : List Nat)
    (hu : u ≠ []) (hnd : u.Nodup) :
    ∃ c ∈ u,
      (∀ d ∈ u,
        sim (text ++ " " ++ eng.getD d "") (khmer.getD p.km "") - p.score ≤
          sim (text ++ " " ++ eng.getD c "") (khmer.getD p.km "") - p.score) ∧
      merge_unused_go sim eng khmer ((p, text) :: rest) u =
        ((text ++ " " ++ eng.getD c "") ::
            (merge_unused_go sim eng khmer rest (u.erase c)).1,
          ⟨p.en, p.km,
            sim (text ++ " " ++ eng.getD c "") (khmer.getD p.km "")⟩ ::
            (merge_unused_go sim eng khmer rest (u.erase c)).2) ∧
      merge_choices sim eng khmer ((p, text) :: rest) u =
        c :: merge_choices sim eng khmer rest (u.erase c) ∧
      (merge_choices sim eng khmer ((p, text) :: rest) u).Nodup := by
  cases hinner : innerLoop sim eng (khmer.getD p.km "") text p.score u none with
  | none =>
    exact absurd (innerLoop_eq_none sim eng (khmer.getD p.km "") text p.score
      u none hinner).2 hu
  | some b =>
    rcases innerLoop_some_spec sim eng (khmer.getD p.km "") text p.score u
        none b hinner with hcontra | ⟨hmem, htext, hnew, hdiff⟩
    · cases hcontra
    · refine ⟨b.idx, hmem, ?_, ?_, ?_, ?_⟩
      · intro d hd
        have hmax := (innerLoop_max sim eng (khmer.getD p.km "") text p.score
          u none b hinner).1 d hd
        rw [hdiff] at hmax
        exact hmax
      · simp only [merge_unused_go, hinner, htext, hnew]
      · simp only [merge_choices, hinner]
      · exact (merge_choices_sound sim eng khmer ((p, text) :: rest) u hnd).1

/-- Concrete instance of `merge_step`: with English sentences `["aa", "b"]`,
one Khmer sentence, the pair `(0, 0)` holding text `"aa"` with old score 2,
and pool `[1]`, one merge is forced. -/
theorem merge_step_witness :
    ∃ c ∈ ([1] : List Nat),
      (∀ d ∈ ([1] : List Nat),
        (fun a _ => (a.length : ℚ)) ("aa" ++ " " ++ ["aa", "b"].getD d "")
            (["k"].getD (0 : Nat) "") - (2 : ℚ) ≤
          (fun a _ => (a.length : ℚ)) ("aa" ++ " " ++ ["aa", "b"].getD c "")
            (["k"].getD (0 : Nat) "") - (2 : ℚ)) ∧
      merge_unused_go (fun a _ => (a.length : ℚ)) ["aa", "b"] ["k"]
          [(⟨0, 0, 2⟩, "aa")] [1] =
        (("aa" ++ " " ++ ["aa", "b"].getD c "") ::
            (merge_unused_go (fun a _ => (a.length : ℚ)) ["aa", "b"] ["k"] []
              (([1] : List Nat).erase c)).1,
          ⟨0, 0,
            (fun a _ => (a.length : ℚ)) ("aa" ++ " " ++ ["aa", "b"].getD c "")
              (["k"].getD (0 : Nat) "")⟩ ::
            (merge_unused_go (fun a _ => (a.length : ℚ)) ["aa", "b"] ["k"] []
              (([1] : List Nat).erase c)).2) ∧
      merge_choices (fun a _ => (a.length : ℚ)) ["aa", "b"] ["k"]
          [(⟨0, 0, 2⟩, "aa")] [1] =
        c :: merge_choices (fun a _ => (a.length : ℚ)) ["aa", "b"] ["k"] []
          (([1] : List Nat).erase c) ∧
      (merge_choices (fun a _ => (a.length : ℚ)) ["aa", "b"] ["k"]
        [(⟨0, 0, 2⟩, "aa")] [1]).Nodup :=
  merge_step (fun a _ => (a.length : ℚ)) ["aa", "b"] ["k"] ⟨0, 0, 2⟩ "aa" []
    [1] (by decide) (by decide)

/-! ## C1: the shape of `align` -/

theorem map_getD_range (l : List String) :
    (List.range l.length).map (fun i => l.getD i "") = l := by
  apply List.ext_getElem
  · simp
  · intro i h1 h2
    simp [List.getD_eq_getElem?_getD, List.getElem?_eq_getElem h2]

theorem find_best_matches_length (sim : String → String → ℚ)
    (e k : List String) : (find_best_matches sim e k).length = k.length := by
  simp [find_best_matches]

theorem find_best_matches_map_km (sim : String → String → ℚ)
    (e k : List String) :
    (find_best_matches sim e k).map Pair.km = List.range k.length := by
  simp [find_best_matches, List.map_map]
  exact List.map_id _

theorem find_best_matches_getElem (sim : String → String → ℚ)
    (e k : List String) (i : Nat) (hi : i < k.length) :
    (find_best_matches sim e k).getD i default =
      ⟨argmaxFirst (e.map fun s => sim s (k.getD i "")), i,
        (e.map fun s => sim s (k.getD i "")).getD
          (argmaxFirst (e.map fun s => sim s (k.getD i ""))) 0⟩ := by
  have hlen : i < (find_best_matches sim e k).length := by
    rw [find_best_matches_length]; exact hi
  rw [List.getD_eq_getElem?_getD, List.getElem?_eq_getElem hlen]
  simp [find_best_matches]

theorem zip_getD_snd :
    ∀ (ps : List Pair) (ts : List String) (i : Nat),
      i < ps.length → i < ts.length →
      ((ps.zip ts).getD i default).2 = ts.getD i "" := by
  intro ps
  induction ps with
  | nil => intro ts i h _; exact absurd h (by simp)
  | cons p ps ih =>
    intro ts i h1 h2
    cases ts with
    | nil => exact absurd h2 (by simp)
    | cons t ts =>
      cases i with
      | zero => rfl
      | succ j =>
        simp only [List.zip_cons_cons, List.getD_cons_succ]
        exact ih ts j (by simpa using h1) (by simpa using h2)

theorem map_en_getD (e : List String) :
    ∀ (ps : List Pair) (i : Nat), i < ps.length →
      (ps.map fun p => e.getD p.en "").getD i "" =
        e.getD ((ps.getD i default).en) "" := by
  intro ps
  induction ps with
  | nil => intro i h; exact absurd h (by simp)
  | cons p ps ih =>
    intro i h
    cases i with
    | zero => rfl
    | succ j =>
      simp only [List.map_cons, List.getD_cons_succ]
      exact ih j (by simpa using h)

/-- C1: for both lists non-empty, `align` returns two lists of equal length,
each as long as the Khmer input; the returned Khmer list is exactly the input
Khmer list in original order; and element `i` of the returned English list is
the possibly-merged text chosen for Khmer fragment `i`: the best-match
English sentence of Khmer fragment `i`, possibly extended by one unused
English sentence with a separating space. -/
theorem align_shape (sim : String → String → ℚ) (e k : List String)
    (he : e ≠ []) (hk : k ≠ []) :
    ∃ out, align sim ⟨some e, some k⟩ = .ok out ∧
      out.english.length = k.length ∧ out.khmer.length = k.length ∧
      out.khmer = k ∧
      ∀ i, i < k.length →
        out.english.getD i "" =
          e.getD (argmaxFirst (e.map fun s => sim s (k.getD i ""))) "" ∨
        ∃ c, out.english.getD i "" =
          e.getD (argmaxFirst (e.map fun s => sim s (k.getD i ""))) "" ++
            " " ++ e.getD c "" := by
  have hne : ¬(e.isEmpty || k.isEmpty) = true := by
    simp [List.isEmpty_iff, he, hk]
  have hout : align sim ⟨some e, some k⟩ = .ok
      ⟨(merge_unused_sentences sim (find_best_matches sim e k) e k
          ((find_best_matches sim e k).map Pair.en)).1,
        (merge_unused_sentences sim (find_best_matches sim e k) e k
          ((find_best_matches sim e k).map Pair.en)).2.map
          fun p => k.getD p.km ""⟩ := by
    simp only [align]
    rw [if_neg hne]
  have htexts_len :
      ((find_best_matches sim e k).map fun p => e.getD p.en "").length =
        (find_best_matches sim e k).length := List.length_map _ _
  have hzip_len :
      ((find_best_matches sim e k).zip
        ((find_best_matches sim e k).map fun p => e.getD p.en "")).length =
      k.length := by
    rw [List.length_zip, htexts_len, Nat.min_self, find_best_matches_length]
  have hM : merge_unused_sentences sim (find_best_matches sim e k) e k
      ((find_best_matches sim e k).map Pair.en) =
      merge_unused_go sim e k
        ((find_best_matches sim e k).zip
          ((find_best_matches sim e k).map fun p => e.getD p.en ""))
        ((List.range e.length).filter
          fun i => !(((find_best_matches sim e k).map Pair.en).contains i)) :=
    rfl
  refine ⟨_, hout, ?_, ?_, ?_, ?_⟩
  · rw [hM, (merge_unused_go_length sim e k _ _).1, hzip_len]
  · rw [List.length_map, hM, (merge_unused_go_length sim e k _ _).2, hzip_len]
  · rw [hM]
    have hcomp1 : (fun p : Pair => k.getD p.km "") =
        ((fun j => k.getD j "") ∘ Pair.km) := rfl
    rw [hcomp1, ← List.map_map, merge_unused_go_km]
    have hcomp2 : (fun pt : Pair × String => pt.1.km) =
        (Pair.km ∘ Prod.fst) := rfl
    rw [hcomp2, ← List.map_map,
      List.map_fst_zip _ _ (le_of_eq htexts_len.symm),
      find_best_matches_map_km, map_getD_range]
  · intro i hi
    have hiL : i < ((find_best_matches sim e k).zip
        ((find_best_matches sim e k).map fun p => e.getD p.en "")).length := by
      rw [hzip_len]; exact hi
    have hip : i < (find_best_matches sim e k).length := by
      rw [find_best_matches_length]; exact hi
    have hL : (((find_best_matches sim e k).zip
        ((find_best_matches sim e k).map fun p => e.getD p.en "")).getD
          i default).2 =
        e.getD (argmaxFirst (e.map fun s => sim s (k.getD i ""))) "" := by
      rw [zip_getD_snd _ _ i hip (by rw [htexts_len]; exact hip)]
      rw [map_en_getD e _ i hip]
      rw [find_best_matches_getElem sim e k i hi]
    rcases merge_unused_go_texts_shape sim e k
        ((find_best_matches sim e k).zip
          ((find_best_matches sim e k).map fun p => e.getD p.en ""))
        ((List.range e.length).filter
          fun i => !(((find_best_matches sim e k).map Pair.en).contains i))
        i hiL with h1 | ⟨c, _, h1⟩
    · left
      rw [show (⟨(merge_unused_sentences sim (find_best_matches sim e k) e k
          ((find_best_matches sim e k).map Pair.en)).1,
        (merge_unused_sentences sim (find_best_matches sim e k) e k
          ((find_best_matches sim e k).map Pair.en)).2.map
          fun p => k.getD p.km ""⟩ : AlignOutput).english =
        (merge_unused_go sim e k
          ((find_best_matches sim e k).zip
            ((find_best_matches sim e k).map fun p => e.getD p.en ""))
          ((List.range e.length).filter
            fun i => !(((find_best_matches sim e k).map Pair.en).contains i))).1
        from by rw [← hM]]
      rw [h1, hL]
    · right
      refine ⟨c, ?_⟩
      rw [show (⟨(merge_unused_sentences sim (find_best_matches sim e k) e k
          ((find_best_matches sim e k).map Pair.en)).1,
        (merge_unused_sentences sim (find_best_matches sim e k) e k
          ((find_best_matches sim e k).map Pair.en)).2.map
          fun p => k.getD p.km ""⟩ : AlignOutput).english =
        (merge_unused_go sim e k
          ((find_best_matches sim e k).zip
            ((find_best_matches sim e k).map fun p => e.getD p.en ""))
          ((List.range e.length).filter
            fun i => !(((find_best_matches sim e k).map Pair.en).contains i))).1
        from by rw [← hM]]
      rw [h1, hL]

/-- Concrete instance of `align_shape`: two English sentences against one
Khmer sentence align to a single pair whose Khmer side is the input Khmer
sentence. -/
theorem align_shape_witness :
    ∃ out, align (fun a _ => (a.length : ℚ))
        ⟨some ["hello", "hi"], some ["សួស្តី។"]⟩ = .ok out ∧
      out.english.length = (["សួស្តី។"] : List String).length ∧
      out.khmer.length = (["សួស្តី។"] : List String).length ∧
      out.khmer = ["សួស្តី។"] ∧
      ∀ i, i < (["សួស្តី។"] : List String).length →
        out.english.getD i "" =
          ["hello", "hi"].getD (argmaxFirst (["hello", "hi"].map
            fun s => (fun a _ => (a.length : ℚ)) s
              ((["សួស្តី។"] : List String).getD i ""))) "" ∨
        ∃ c, out.english.getD i "" =
          ["hello", "hi"].getD (argmaxFirst (["hello", "hi"].map
            fun s => (fun a _ => (a.length : ℚ)) s
              ((["សួស្តី។"] : List String).getD i ""))) "" ++
            " " ++ ["hello", "hi"].getD c "" :=
  align_shape (fun a _ => (a.length : ℚ)) ["hello", "hi"] ["សួស្តី។"]
    (by decide) (by decide)

end MoCScraper
